import Mathlib

/-!
Verification of the rtsp-camera-driver packet-to-frame pipeline.

The definitions below are a shallow embedding of `src/app/main.py`.
Wall-clock instants and the stream time base are modelled as exact
rationals (the Python code uses `datetime`/`timedelta` and a `Fraction`
time base converted to seconds); packet payloads are lists of byte
values.
-/

/-- One transport packet as produced by the demuxer: optional pts and
dts (stream time-base units), raw payload bytes, and the stream
dimensions and keyframe flag read off the packet. -/
structure Packet where
  pts : Option Int
  dts : Option Int
  data : List Nat
  width : Nat
  height : Nat
  is_keyframe : Bool
  deriving DecidableEq

/-- One emitted frame message: payload bytes, dimensions, keyframe flag
and the absolute timestamp placed in the envelope header.  The
timestamp is an `Option` because the Python loop reads the mutable
`last_absolute_timestamp`, which is `None` until the first usable
packet has been seen. -/
structure Frame where
  data : List Nat
  width : Nat
  height : Nat
  is_keyframe : Bool
  timestamp : Option ℚ
  deriving DecidableEq

/-- The mutable state of the packet loop in `main`: the byte buffer
being filled, the ordering key of the currently open group, and the
pending metadata of the most recently buffered packet. -/
structure AsmState where
  frame_buffer : List Nat
  current_packet_time : Option Int
  last_absolute_timestamp : Option ℚ
  last_width : Nat
  last_height : Nat
  last_is_keyframe : Bool
  deriving DecidableEq

/-- Initial loop state: empty buffer, no open group, zeroed metadata,
exactly as the Python locals are initialised before the `for` loop. -/
def initState : AsmState :=
  { frame_buffer := []
    current_packet_time := none
    last_absolute_timestamp := none
    last_width := 0
    last_height := 0
    last_is_keyframe := false }

/-- `stream_start + timedelta(seconds = packet_time * time_base)`:
the absolute timestamp the code computes for ordering key `t`. -/
def absTime (tb T0 : ℚ) (t : Int) : ℚ :=
  T0 + (t : ℚ) * tb

/-- The ordering key of a packet: pts when present, else dts
(`packet_time = packet.pts if packet.pts is not None else packet.dts`).
Only meaningful for packets whose dts is present. -/
def pKey (p : Packet) : Int :=
  match p.pts with
  | some t => t
  | none => p.dts.getD 0

/-- One iteration of the `for packet in container.demux(...)` body.
Returns the updated state and the frame published in this iteration,
if any.  A packet with no dts is skipped (`continue`).  Otherwise the
ordering key is compared with the open group's key; on a change the
buffered bytes are emitted with the previously pending metadata and a
new group starts with this packet's bytes. -/
def processPacket (tb T0 : ℚ) (s : AsmState) (p : Packet) : AsmState × Option Frame :=
  match p.dts with
  | none => (s, none)
  | some d =>
    let packet_time : Int := match p.pts with | some t => t | none => d
    let absolute_timestamp : ℚ := absTime tb T0 packet_time
    let cpt : Int := match s.current_packet_time with | none => packet_time | some k => k
    if packet_time ≠ cpt then
      ({ frame_buffer := p.data
         current_packet_time := some packet_time
         last_absolute_timestamp := some absolute_timestamp
         last_width := p.width
         last_height := p.height
         last_is_keyframe := p.is_keyframe },
       some { data := s.frame_buffer
              width := s.last_width
              height := s.last_height
              is_keyframe := s.last_is_keyframe
              timestamp := s.last_absolute_timestamp })
    else
      ({ frame_buffer := s.frame_buffer ++ p.data
         current_packet_time := some cpt
         last_absolute_timestamp := some absolute_timestamp
         last_width := p.width
         last_height := p.height
         last_is_keyframe := p.is_keyframe },
       none)

/-- Run the loop body over a whole packet list, collecting every frame
published along the way (the loop performs no end-of-stream flush, so
whatever remains in the buffer when the list ends is not returned). -/
def processPackets (tb T0 : ℚ) : AsmState → List Packet → AsmState × List Frame
  | s, [] => (s, [])
  | s, p :: ps =>
    let step := processPacket tb T0 s p
    let rest := processPackets tb T0 step.1 ps
    (rest.1, step.2.toList ++ rest.2)

/-- The frames `main` publishes for a given packet sequence, starting
from the freshly initialised loop state. -/
def mainFrames (tb T0 : ℚ) (ps : List Packet) : List Frame :=
  (processPackets tb T0 initState ps).2

/-- The usable packets of a sequence: those carrying a dts
(packets without one are skipped by the loop). -/
def usableP (ps : List Packet) : List Packet :=
  ps.filter (fun p => p.dts.isSome)

/-- The ordering keys of the usable packets, in arrival order. -/
def usableKeys (ps : List Packet) : List Int :=
  (usableP ps).map pKey

/-- Number of maximal runs of equal consecutive values. -/
def runCount : List Int → Nat
  | [] => 0
  | [_] => 1
  | a :: b :: t => (if a = b then 0 else 1) + runCount (b :: t)

/-- Split a packet list into its longest leading block whose ordering
keys all equal `k`, and the remainder. -/
def splitRun (k : Int) : List Packet → List Packet × List Packet
  | [] => ([], [])
  | p :: ps =>
    if pKey p = k then
      let r := splitRun k ps
      (p :: r.1, r.2)
    else
      ([], p :: ps)

theorem splitRun_snd_length (k : Int) : ∀ ps : List Packet, (splitRun k ps).2.length ≤ ps.length := by
  intro ps
  induction ps with
  | nil => simp [splitRun]
  | cons p ps ih =>
    by_cases h : pKey p = k
    · simp only [splitRun, if_pos h]
      exact Nat.le_succ_of_le ih
    · simp [splitRun, if_neg h]

/-- The maximal runs of consecutive packets sharing one ordering key. -/
def runs : List Packet → List (List Packet)
  | [] => []
  | p :: ps =>
    (p :: (splitRun (pKey p) ps).1) :: runs (splitRun (pKey p) ps).2
termination_by ps => ps.length
decreasing_by
  simp only [List.length_cons]
  exact Nat.lt_succ_of_le (splitRun_snd_length (pKey p) ps)

/-- Concatenation of the raw bytes of a packet run, in order. -/
def joinData (r : List Packet) : List Nat :=
  (r.map Packet.data).flatten

/-- Last element of a packet list, if any. -/
def lastPkt : List Packet → Option Packet
  | [] => none
  | [p] => some p
  | _ :: q :: r => lastPkt (q :: r)

/-- The frame a closed run yields: the run's concatenated bytes with
the metadata and absolute timestamp of the run's last packet. -/
def frameOfRun (tb T0 : ℚ) (r : List Packet) : Frame :=
  match lastPkt r with
  | none => { data := [], width := 0, height := 0, is_keyframe := false, timestamp := none }
  | some q =>
    { data := joinData r
      width := q.width
      height := q.height
      is_keyframe := q.is_keyframe
      timestamp := some (absTime tb T0 (pKey q)) }

/-- A loop state in which a group with key `k` is open: buffer `B`,
pending metadata `w`, `h`, `kf`, `ts`. -/
def openState (k : Int) (B : List Nat) (w h : Nat) (kf : Bool) (ts : Option ℚ) : AsmState :=
  { frame_buffer := B
    current_packet_time := some k
    last_absolute_timestamp := ts
    last_width := w
    last_height := h
    last_is_keyframe := kf }

theorem pKey_of_dts {p : Packet} {d : Int} (hd : p.dts = some d) :
    (match p.pts with | some t => t | none => d) = pKey p := by
  cases hpp : p.pts <;> simp [pKey, hpp, hd]

theorem processPacket_skip (tb T0 : ℚ) (s : AsmState) (p : Packet) (h : p.dts = none) :
    processPacket tb T0 s p = (s, none) := by
  simp [processPacket, h]

theorem processPacket_open (tb T0 : ℚ) (p : Packet) {d : Int} (hd : p.dts = some d)
    (k : Int) (B : List Nat) (w h : Nat) (kf : Bool) (ts : Option ℚ) :
    processPacket tb T0 (openState k B w h kf ts) p =
      if pKey p = k then
        (openState k (B ++ p.data) p.width p.height p.is_keyframe
          (some (absTime tb T0 (pKey p))), none)
      else
        (openState (pKey p) p.data p.width p.height p.is_keyframe
          (some (absTime tb T0 (pKey p))),
         some { data := B, width := w, height := h, is_keyframe := kf, timestamp := ts }) := by
  by_cases hk : pKey p = k <;>
    simp [processPacket, hd, pKey_of_dts hd, openState, hk]

theorem processPacket_init (tb T0 : ℚ) (p : Packet) {d : Int} (hd : p.dts = some d) :
    processPacket tb T0 initState p =
      (openState (pKey p) p.data p.width p.height p.is_keyframe
        (some (absTime tb T0 (pKey p))), none) := by
  simp [processPacket, hd, pKey_of_dts hd, openState, initState]

theorem lastPkt_cons_cons (p q : Packet) (r : List Packet) :
    lastPkt (p :: q :: r) = lastPkt (q :: r) := rfl

theorem lastPkt_cons_ne_none (q : Packet) : ∀ r : List Packet, lastPkt (q :: r) ≠ none := by
  intro r
  induction r generalizing q with
  | nil => simp [lastPkt]
  | cons x xs ih => rw [lastPkt_cons_cons]; exact ih x

/-- The frame emitted when the group currently open — buffer `B`,
pending metadata `w h kf ts` — is extended by run `r` and then closed:
bytes `B ++ joinData r` and the metadata of `r`'s last packet (or the
pending metadata when `r` is empty). -/
def runFrameFrom (tb T0 : ℚ) (B : List Nat) (w h : Nat) (kf : Bool) (ts : Option ℚ)
    (r : List Packet) : Frame :=
  match lastPkt r with
  | none => { data := B, width := w, height := h, is_keyframe := kf, timestamp := ts }
  | some q =>
    { data := B ++ joinData r
      width := q.width
      height := q.height
      is_keyframe := q.is_keyframe
      timestamp := some (absTime tb T0 (pKey q)) }

theorem runFrameFrom_cons (tb T0 : ℚ) (B : List Nat) (w h : Nat) (kf : Bool) (ts : Option ℚ)
    (p : Packet) (r : List Packet) :
    runFrameFrom tb T0 B w h kf ts (p :: r) =
      runFrameFrom tb T0 (B ++ p.data) p.width p.height p.is_keyframe
        (some (absTime tb T0 (pKey p))) r := by
  cases r with
  | nil => simp [runFrameFrom, lastPkt, joinData]
  | cons q r' =>
    cases hl : lastPkt (q :: r') with
    | none => exact absurd hl (lastPkt_cons_ne_none q r')
    | some x =>
      simp [runFrameFrom, lastPkt_cons_cons, hl, joinData]

theorem frameOfRun_cons (tb T0 : ℚ) (p : Packet) (r : List Packet) :
    frameOfRun tb T0 (p :: r) =
      runFrameFrom tb T0 p.data p.width p.height p.is_keyframe
        (some (absTime tb T0 (pKey p))) r := by
  cases r with
  | nil => simp [frameOfRun, runFrameFrom, lastPkt, joinData]
  | cons q r' =>
    cases hl : lastPkt (q :: r') with
    | none => exact absurd hl (lastPkt_cons_ne_none q r')
    | some x =>
      simp [frameOfRun, runFrameFrom, lastPkt_cons_cons, hl, joinData]

/-- The frames the loop will emit from a state in which a group with
key `k`, buffer `B` and pending metadata `w h kf ts` is open, given
the remaining packets: the open group absorbs the leading block of
key `k`, is emitted when a different key arrives, and the later runs
are emitted except the final one, which stays buffered. -/
def openFrames (tb T0 : ℚ) (k : Int) (B : List Nat) (w h : Nat) (kf : Bool) (ts : Option ℚ)
    (ps : List Packet) : List Frame :=
  match splitRun k ps with
  | (_, []) => []
  | (r, q :: rest) =>
    runFrameFrom tb T0 B w h kf ts r ::
      ((runs (q :: rest)).dropLast).map (frameOfRun tb T0)

theorem runs_cons (p : Packet) (ps : List Packet) :
    runs (p :: ps) =
      (p :: (splitRun (pKey p) ps).1) :: runs ((splitRun (pKey p) ps).2) := by
  simp only [runs]

theorem runs_dropLast_eq_openFrames (tb T0 : ℚ) (p : Packet) (ps : List Packet) :
    ((runs (p :: ps)).dropLast).map (frameOfRun tb T0) =
      openFrames tb T0 (pKey p) p.data p.width p.height p.is_keyframe
        (some (absTime tb T0 (pKey p))) ps := by
  rcases hsplit : splitRun (pKey p) ps with ⟨r1, rest1⟩
  cases rest1 with
  | nil =>
    rw [runs_cons, hsplit]
    simp [runs, openFrames, hsplit]
  | cons q rest' =>
    rw [runs_cons, hsplit, runs_cons q rest']
    rw [List.dropLast_cons₂, List.map_cons, frameOfRun_cons]
    rw [show openFrames tb T0 (pKey p) p.data p.width p.height p.is_keyframe
          (some (absTime tb T0 (pKey p))) ps =
          runFrameFrom tb T0 p.data p.width p.height p.is_keyframe
            (some (absTime tb T0 (pKey p))) r1 ::
          ((runs (q :: rest')).dropLast).map (frameOfRun tb T0) from by
      simp [openFrames, hsplit]]
    rw [runs_cons q rest']

theorem processPackets_openState (tb T0 : ℚ) :
    ∀ (ps : List Packet), (∀ q ∈ ps, q.dts.isSome) →
    ∀ (k : Int) (B : List Nat) (w h : Nat) (kf : Bool) (ts : Option ℚ),
      (processPackets tb T0 (openState k B w h kf ts) ps).2
        = openFrames tb T0 k B w h kf ts ps := by
  intro ps
  induction ps with
  | nil =>
    intro _ k B w h kf ts
    simp [processPackets, openFrames, splitRun]
  | cons p ps ih =>
    intro hus k B w h kf ts
    obtain ⟨d, hd⟩ := Option.isSome_iff_exists.mp (hus p (List.mem_cons_self p ps))
    have hus' : ∀ q ∈ ps, q.dts.isSome := fun q hq => hus q (List.mem_cons_of_mem p hq)
    have hstep := processPacket_open tb T0 p hd k B w h kf ts
    by_cases hk : pKey p = k
    · rw [if_pos hk] at hstep
      simp only [processPackets, hstep, Option.toList, List.nil_append]
      rw [ih hus']
      rcases hsplit : splitRun k ps with ⟨r1, rest1⟩
      have hsplit' : splitRun k (p :: ps) = (p :: r1, rest1) := by
        simp [splitRun, hk, hsplit]
      cases rest1 with
      | nil => simp [openFrames, hsplit, hsplit']
      | cons q rest' =>
        simp only [openFrames, hsplit, hsplit']
        rw [runFrameFrom_cons, hk]
    · rw [if_neg hk] at hstep
      simp only [processPackets, hstep, Option.toList, List.singleton_append]
      rw [ih hus']
      have hsplit' : splitRun k (p :: ps) = ([], p :: ps) := by
        simp [splitRun, hk]
      have hopen : openFrames tb T0 k B w h kf ts (p :: ps) =
          runFrameFrom tb T0 B w h kf ts [] ::
            ((runs (p :: ps)).dropLast).map (frameOfRun tb T0) := by
        simp only [openFrames, hsplit']
      rw [hopen, runs_dropLast_eq_openFrames]
      simp [runFrameFrom, lastPkt]

theorem processPackets_usable (tb T0 : ℚ) :
    ∀ (ps : List Packet) (s : AsmState),
      processPackets tb T0 s ps = processPackets tb T0 s (usableP ps) := by
  intro ps
  induction ps with
  | nil => intro s; simp [usableP]
  | cons p ps ih =>
    intro s
    by_cases h : p.dts.isSome
    · have hu : usableP (p :: ps) = p :: usableP ps := by
        simp [usableP, List.filter_cons, h]
      rw [hu]
      simp only [processPackets]
      rw [ih]
    · have hnone : p.dts = none := Option.not_isSome_iff_eq_none.mp h
      have hu : usableP (p :: ps) = usableP ps := by
        simp [usableP, List.filter_cons, h]
      rw [hu]
      simp only [processPackets, processPacket_skip tb T0 s p hnone, Option.toList,
        List.nil_append]
      rw [ih]

/-- Full characterisation of the loop's output: the frames published
for a packet sequence are exactly the maximal same-key runs of its
usable packets, except the final run (never flushed), each rendered as
its concatenated bytes with its last packet's metadata. -/
theorem mainFrames_eq_runs (tb T0 : ℚ) (ps : List Packet) :
    mainFrames tb T0 ps = ((runs (usableP ps)).dropLast).map (frameOfRun tb T0) := by
  unfold mainFrames
  rw [processPackets_usable]
  have hus : ∀ q ∈ usableP ps, q.dts.isSome := fun q hq => (List.mem_filter.mp hq).2
  cases hu : usableP ps with
  | nil => simp [processPackets, runs]
  | cons p ups =>
    rw [hu] at hus
    obtain ⟨d, hd⟩ := Option.isSome_iff_exists.mp (hus p (List.mem_cons_self p ups))
    simp only [processPackets, processPacket_init tb T0 p hd, Option.toList, List.nil_append]
    rw [processPackets_openState tb T0 ups (fun q hq => hus q (List.mem_cons_of_mem p hq))]
    rw [runs_dropLast_eq_openFrames]

/-- Spec-side (§4.1 BitstreamValidator): a byte sequence begins with
the 4-byte start code `00 00 00 01` or the 3-byte start code
`00 00 01`.  The source under `src/` contains no such check; this
definition follows the spec's words so the claimed validation can be
compared against what the code actually does. -/
def specStartCodeOk (data : List Nat) : Bool :=
  data.take 4 == [0, 0, 0, 1] || data.take 3 == [0, 0, 1]

/-- The module-level codec table of `main.py`, mapping the configured
codec identifier to the ffmpeg codec name. -/
def FFMPEG_CODEC_MAPPING : List (String × String) :=
  [("h264", "h264"), ("h265", "hevc"), ("av1", "libaom-av1")]

/-- Membership test and lookup in the codec table
(`codec not in FFMPEG_CODEC_MAPPING` / `FFMPEG_CODEC_MAPPING[codec]`). -/
def lookupCodec (c : String) : Option String :=
  (FFMPEG_CODEC_MAPPING.find? (fun e => e.1 == c)).map (fun e => e.2)

/-- The fatal startup errors `main` can raise before the packet loop. -/
inductive StartupError where
  | unsupportedCodec
  | streamIndexMissing
  | codecMismatch
  deriving DecidableEq

/-- The startup sequence of `main` followed by the packet loop: reject
a configured codec outside the table; select the stream by index
(modelled as a list of per-stream codec names); reject a stream codec
that differs from the mapped configured codec; only then run the
packet loop.  An error means the session aborts with zero frames
published. -/
def openSession (codec : String) (streamCodecs : List String) (stream_index : Nat)
    (tb T0 : ℚ) (ps : List Packet) : Except StartupError (List Frame) :=
  match lookupCodec codec with
  | none => .error .unsupportedCodec
  | some ffname =>
    match streamCodecs[stream_index]? with
    | none => .error .streamIndexMissing
    | some codec_name =>
      if codec_name ≠ ffname then .error .codecMismatch
      else .ok (mainFrames tb T0 ps)

/-- The width, height, keyframe flag and absolute timestamp of the
last packet of a run (zeros and `none` for an empty run). -/
def lastPacketMeta (tb T0 : ℚ) (r : List Packet) : Nat × Nat × Bool × Option ℚ :=
  match lastPkt r with
  | none => (0, 0, false, none)
  | some q => (q.width, q.height, q.is_keyframe, some (absTime tb T0 (pKey q)))

theorem runs_mem_ne_nil : ∀ (n : Nat) (ps : List Packet), ps.length ≤ n →
    ∀ r ∈ runs ps, r ≠ [] := by
  intro n
  induction n with
  | zero =>
    intro ps hlen
    rw [List.length_eq_zero.mp (Nat.le_zero.mp hlen)]
    simp [runs]
  | succ n ih =>
    intro ps hlen r hr
    cases ps with
    | nil => simp [runs] at hr
    | cons p ps' =>
      rw [runs_cons] at hr
      rcases List.mem_cons.mp hr with h | h
      · rw [h]; exact List.cons_ne_nil _ _
      · exact ih ((splitRun (pKey p) ps').2)
          (le_trans (splitRun_snd_length (pKey p) ps') (Nat.le_of_succ_le_succ hlen)) r h

/-- C1 counterexample: with anchor `T0 = 0`, `time_base = 1/30` and a
stream start pts of 100, the loop maps a packet with `pts = 130` to
absolute timestamp `13/3` seconds — not `T0 + 1.0` second as the claim
requires — because the code multiplies the raw ordering timestamp by
the time base without subtracting the stream start pts. -/
theorem c1_counterexample :
    ((processPacket (1/30) 0 initState
        { pts := some 130, dts := some 130, data := [0, 0, 0, 1], width := 640, height := 480,
          is_keyframe := true }).1).last_absolute_timestamp = some (13/3 : ℚ) ∧
      (13/3 : ℚ) ≠ 0 + ((130 : ℚ) - 100) * (1/30) := by
  constructor
  · norm_num [processPacket, initState, absTime]
  · norm_num

/-- C1 (amended): for every packet with ordering timestamp `t`, the
mapped absolute timestamp equals the wall-clock anchor plus
`t * time_base` seconds; the stream's start pts is never subtracted
(in particular, with anchor `T0` and `time_base = 1/30`, `pts = 130`
maps to `T0 + 13/3` seconds, regardless of the stream's start pts). -/
theorem c1_amended_timestamp_formula (tb T0 : ℚ) (s : AsmState) (p : Packet)
    (h : p.dts.isSome) :
    ((processPacket tb T0 s p).1).last_absolute_timestamp
      = some (T0 + (pKey p : ℚ) * tb) := by
  obtain ⟨d, hd⟩ := Option.isSome_iff_exists.mp h
  simp only [processPacket, hd]
  split <;> simp [absTime, pKey_of_dts hd]

/-- Witness for `c1_amended_timestamp_formula` at a concrete input:
a packet with `pts = 130`, `time_base = 1/30`, anchor `0` gets the
absolute timestamp `13/3` seconds. -/
theorem c1_amended_timestamp_formula_witness :
    (({ pts := some 130, dts := some 130, data := [0, 0, 0, 1], width := 640, height := 480,
        is_keyframe := true } : Packet).dts.isSome) = true ∧
    ((processPacket (1/30) 0 initState
        { pts := some 130, dts := some 130, data := [0, 0, 0, 1], width := 640, height := 480,
          is_keyframe := true }).1).last_absolute_timestamp = some (13/3 : ℚ) := by
  refine ⟨rfl, ?_⟩
  rw [c1_amended_timestamp_formula (1/30) 0 initState _ (by rfl)]
  norm_num [pKey]

/-- C2: the loop never flushes the group still buffered when the
packet sequence ends.  For the single-packet sequence below there is
one maximal run of usable packets, yet the loop publishes no frame at
all: the final group is silently dropped, contradicting the claimed
equality with the number of runs. -/
theorem c2_missing_final_flush :
    runCount (usableKeys
        [{ pts := some 10, dts := some 10, data := [1], width := 640, height := 480,
           is_keyframe := true }]) = 1 ∧
    mainFrames 1 0
        [{ pts := some 10, dts := some 10, data := [1], width := 640, height := 480,
           is_keyframe := true }] = [] := by
  constructor
  · rfl
  · rfl

/-- C3 counterexample: the first usable packet below starts with
`FF FF FF FF`, which is neither start code, yet the session does not
abort: the loop publishes a frame whose payload is exactly those
invalid bytes.  No start-code validation exists in the code. -/
theorem c3_counterexample :
    specStartCodeOk [255, 255, 255, 255] = false ∧
    (mainFrames 1 0
        [{ pts := some 10, dts := some 10, data := [255, 255, 255, 255], width := 640,
           height := 480, is_keyframe := true },
         { pts := some 20, dts := some 20, data := [7], width := 640, height := 480,
           is_keyframe := false }]).map Frame.data = [[255, 255, 255, 255]] := by
  constructor
  · rfl
  · rfl

/-- C3 (amended): the code performs no bitstream validation at all —
the first usable packet's bytes are never inspected, and for any
leading bytes `d` whatsoever the session proceeds and publishes a
frame carrying exactly those bytes. -/
theorem c3_amended_no_validation (tb T0 : ℚ) (d : List Nat) (w h : Nat) (kf : Bool) :
    (mainFrames tb T0
        [{ pts := some 10, dts := some 10, data := d, width := w, height := h,
           is_keyframe := kf },
         { pts := some 20, dts := some 20, data := [7], width := w, height := h,
           is_keyframe := kf }]).map Frame.data = [d] := by
  rfl

/-- C4: byte fidelity.  The payloads of the frames the loop publishes
are exactly the order-preserving concatenations of the raw bytes of
the usable packets of each emitted run (every maximal same-key run
except the final, unflushed one); bytes of skipped packets (missing
dts) appear in no frame. -/
theorem c4_byte_fidelity (tb T0 : ℚ) (ps : List Packet) :
    (mainFrames tb T0 ps).map Frame.data
      = ((runs (usableP ps)).dropLast).map joinData := by
  rw [mainFrames_eq_runs, List.map_map]
  refine List.map_congr_left ?_
  intro r _
  cases r with
  | nil => simp [frameOfRun, lastPkt, joinData]
  | cons q r' =>
    cases hl : lastPkt (q :: r') with
    | none => exact absurd hl (lastPkt_cons_ne_none q r')
    | some x => simp [frameOfRun, hl]

/-- C5: the width, height, keyframe flag and absolute timestamp of
every published frame are those of the last packet contributing to its
run (the loop overwrites the pending metadata with each buffered
packet and emits with the previously pending values on a key change). -/
theorem c5_metadata_from_last_packet (tb T0 : ℚ) (ps : List Packet) :
    (mainFrames tb T0 ps).map (fun f => (f.width, f.height, f.is_keyframe, f.timestamp))
      = ((runs (usableP ps)).dropLast).map (lastPacketMeta tb T0) := by
  rw [mainFrames_eq_runs, List.map_map]
  refine List.map_congr_left ?_
  intro r _
  cases r with
  | nil => simp [frameOfRun, lastPkt, lastPacketMeta]
  | cons q r' =>
    cases hl : lastPkt (q :: r') with
    | none => exact absurd hl (lastPkt_cons_ne_none q r')
    | some x => simp [frameOfRun, hl, lastPacketMeta]

/-- C6: startup codec gating.  A configured codec outside the closed
enumeration `{h264, h265, av1}` makes the session fail with the
unsupported-codec error — whatever the opened stream would report and
with zero frames published; a supported codec whose mapped ffmpeg name
differs from the codec name reported by the selected stream makes the
session fail with the mismatch error, again with zero frames
published.  Both checks are part of the once-per-session startup path,
before the packet loop runs. -/
theorem c6_codec_gate (codec : String) (streamCodecs : List String) (stream_index : Nat)
    (tb T0 : ℚ) (ps : List Packet) :
    (codec ∉ (["h264", "h265", "av1"] : List String) →
      openSession codec streamCodecs stream_index tb T0 ps
        = .error .unsupportedCodec) ∧
    (∀ ffname codec_name, lookupCodec codec = some ffname →
      streamCodecs[stream_index]? = some codec_name → codec_name ≠ ffname →
      openSession codec streamCodecs stream_index tb T0 ps
        = .error .codecMismatch) := by
  constructor
  · intro h
    have h1 : codec ≠ "h264" := fun e => h (by simp [e])
    have h2 : codec ≠ "h265" := fun e => h (by simp [e])
    have h3 : codec ≠ "av1" := fun e => h (by simp [e])
    have e1 : (("h264" : String) == codec) = false := beq_eq_false_iff_ne.mpr h1.symm
    have e2 : (("h265" : String) == codec) = false := beq_eq_false_iff_ne.mpr h2.symm
    have e3 : (("av1" : String) == codec) = false := beq_eq_false_iff_ne.mpr h3.symm
    have hnone : lookupCodec codec = none := by
      simp [lookupCodec, FFMPEG_CODEC_MAPPING, List.find?, e1, e2, e3]
    simp [openSession, hnone]
  · intro ffname codec_name hff hidx hne
    simp [openSession, hff, hidx, hne]

/-- Witness for `c6_codec_gate`: configuring `vp9` fails with the
unsupported-codec error; configuring `h265` (mapped to `hevc`) against
a stream reporting `h264` fails with the mismatch error. -/
theorem c6_codec_gate_witness :
    openSession "vp9" ["h264"] 0 1 0 [] = .error .unsupportedCodec ∧
    openSession "h265" ["h264"] 0 1 0 [] = .error .codecMismatch := by
  constructor
  · exact (c6_codec_gate "vp9" ["h264"] 0 1 0 []).1 (by decide)
  · exact (c6_codec_gate "h265" ["h264"] 0 1 0 []).2 "hevc" "h264" rfl rfl (by decide)

/-- C7: a packet with no decode timestamp is skipped non-fatally —
processing it returns the assembler state (buffer, group key, pending
metadata) exactly unchanged and publishes nothing. -/
theorem c7_no_dts_skipped (tb T0 : ℚ) (s : AsmState) (p : Packet) (h : p.dts = none) :
    processPacket tb T0 s p = (s, none) := by
  simp [processPacket, h]

/-- Witness for `c7_no_dts_skipped`: a concrete dts-less packet leaves
the initial state untouched and publishes nothing. -/
theorem c7_no_dts_skipped_witness :
    processPacket 1 0 initState
        { pts := some 5, dts := none, data := [9], width := 640, height := 480,
          is_keyframe := false } = (initState, none) :=
  c7_no_dts_skipped 1 0 initState _ rfl

/-- C8: the timestamp mapping is monotone — with a non-negative time
base, ordering keys `t1 ≤ t2` map to absolute timestamps in the same
order. -/
theorem c8_timestamp_monotone (tb T0 : ℚ) (t1 t2 : Int) (htb : 0 ≤ tb) (h : t1 ≤ t2) :
    absTime tb T0 t1 ≤ absTime tb T0 t2 := by
  unfold absTime
  have hc : (t1 : ℚ) ≤ (t2 : ℚ) := by exact_mod_cast h
  exact add_le_add_left (mul_le_mul_of_nonneg_right hc htb) T0

/-- Witness for `c8_timestamp_monotone` at `time_base = 1/30`,
`t1 = 10`, `t2 = 20`. -/
theorem c8_timestamp_monotone_witness :
    (0 : ℚ) ≤ 1/30 ∧ (10 : Int) ≤ 20 ∧ absTime (1/30) 0 10 ≤ absTime (1/30) 0 20 :=
  ⟨by norm_num, by norm_num,
    c8_timestamp_monotone (1/30) 0 10 20 (by norm_num) (by norm_num)⟩

/-- C9: every frame the loop publishes carries a populated absolute
timestamp — the emission branch only runs with a group open, and a
group can only be open after a usable packet has set all pending
metadata, so building the outgoing header never reads an unset
timestamp. -/
theorem c9_emitted_timestamp_set (tb T0 : ℚ) (ps : List Packet) (fr : Frame)
    (h : fr ∈ mainFrames tb T0 ps) : fr.timestamp.isSome := by
  rw [mainFrames_eq_runs] at h
  obtain ⟨r, hr, rfl⟩ := List.mem_map.mp h
  have hmem : r ∈ runs (usableP ps) := (List.dropLast_sublist _).subset hr
  have hrne : r ≠ [] :=
    runs_mem_ne_nil (usableP ps).length (usableP ps) le_rfl r hmem
  cases r with
  | nil => exact absurd rfl hrne
  | cons q r' =>
    cases hl : lastPkt (q :: r') with
    | none => exact absurd hl (lastPkt_cons_ne_none q r')
    | some x => simp [frameOfRun, hl]

/-- Witness for `c9_emitted_timestamp_set`: the frame published for a
concrete two-packet sequence has its timestamp set. -/
theorem c9_emitted_timestamp_set_witness :
    ({ data := [1], width := 640, height := 480, is_keyframe := true,
       timestamp := some 10 } : Frame)
      ∈ mainFrames 1 0
        [{ pts := some 10, dts := some 10, data := [1], width := 640, height := 480,
           is_keyframe := true },
         { pts := some 20, dts := some 20, data := [7], width := 640, height := 480,
           is_keyframe := false }] ∧
    ({ data := [1], width := 640, height := 480, is_keyframe := true,
       timestamp := some 10 } : Frame).timestamp.isSome := by
  have hcomp : mainFrames 1 0
        [{ pts := some 10, dts := some 10, data := [1], width := 640, height := 480,
           is_keyframe := true },
         { pts := some 20, dts := some 20, data := [7], width := 640, height := 480,
           is_keyframe := false }]
      = [{ data := [1], width := 640, height := 480, is_keyframe := true,
           timestamp := some 10 }] := by
    norm_num [mainFrames, processPackets, processPacket, initState, absTime]
  have hmem : ({ data := [1], width := 640, height := 480, is_keyframe := true,
                 timestamp := some 10 } : Frame)
      ∈ mainFrames 1 0
        [{ pts := some 10, dts := some 10, data := [1], width := 640, height := 480,
           is_keyframe := true },
         { pts := some 20, dts := some 20, data := [7], width := 640, height := 480,
           is_keyframe := false }] := by
    rw [hcomp]
    exact List.mem_singleton.mpr rfl
  exact ⟨hmem, c9_emitted_timestamp_set 1 0 _ _ hmem⟩

/-- C10: published frames are immutable snapshots — processing further
packets only appends new frames after the ones already published, so
no later packet ever alters the payload (or any field) of an
already-published frame; the loop's fresh-buffer reset on emission is
what makes the published list a stable prefix. -/
theorem c10_published_frames_stable (tb T0 : ℚ) (s : AsmState) (l1 l2 : List Packet) :
    processPackets tb T0 s (l1 ++ l2)
      = ((processPackets tb T0 (processPackets tb T0 s l1).1 l2).1,
         (processPackets tb T0 s l1).2
           ++ (processPackets tb T0 (processPackets tb T0 s l1).1 l2).2) := by
  induction l1 generalizing s with
  | nil => simp [processPackets]
  | cons p l1 ih =>
    simp only [List.cons_append, processPackets, List.append_eq]
    rw [ih]
    simp [List.append_assoc]
